import Mathlib

/-!
Verification of the SmoothTrack head/eye visualization core
(`eye_track.py`): pose decoding, calibration state machine,
corner-interpolation gaze mapping, and the 3D rotate/project math.

Real-valued arithmetic of the source (Python floats) is modelled over ℚ
where only field operations occur (calibration, gaze ratios) and over ℝ
where trigonometry occurs (rotation, projection).  Python `int()`
truncation toward zero is modelled explicitly.
-/

namespace EyeTrack

/-- Python `min` over a nonempty list (the source only calls it on the
4-element yaw/pitch lists); the `[]` default is never reached there. -/
def listMin : List ℚ → ℚ
  | [] => 0
  | [a] => a
  | a :: b :: t => min a (listMin (b :: t))

/-- Python `max` over a nonempty list, as in `listMin`. -/
def listMax : List ℚ → ℚ
  | [] => 0
  | [a] => a
  | a :: b :: t => max a (listMax (b :: t))

/-- The mutable state of `main` that the calibration key handler touches:
`calibrating`, `calib_step`, `calib_points`, and the mapping bounds
`min_yaw`, `max_yaw`, `min_pitch`, `max_pitch` (eye_track.py lines 69-75). -/
structure CalibState where
  calibrating : Bool
  calib_step : ℕ
  calib_points : List (ℚ × ℚ)
  min_yaw : ℚ
  max_yaw : ℚ
  min_pitch : ℚ
  max_pitch : ℚ
deriving Repr, DecidableEq

/-- The initial state of `main`: Idle, no samples, default bounds
(eye_track.py lines 69-75). -/
def initState : CalibState :=
  { calibrating := false
    calib_step := 0
    calib_points := []
    min_yaw := -20
    max_yaw := 20
    min_pitch := -20
    max_pitch := 20 }

/-- The two input triggers the calibration state machine consumes:
the `C` key (start calibration) and the `SPACE` key (capture). -/
inductive Trigger where
  | start
  | capture
deriving Repr, DecidableEq

/-- One `KEYDOWN` dispatch of `main`'s event loop (eye_track.py lines
97-121).  `live` is the current pose's `(yaw, pitch)` pair read at line 91.
`C` always resets to Calibrating step 0 with no samples; `SPACE` only acts
while calibrating: it appends `(yaw, pitch)`, increments the step, and on
step passing 3 computes the min/max bounds and leaves calibration. -/
def handleKey (s : CalibState) (live : ℚ × ℚ) : Trigger → CalibState
  | .start =>
      { s with calibrating := true, calib_step := 0, calib_points := [] }
  | .capture =>
      if s.calibrating then
        let pts := s.calib_points ++ [live]
        let st := s.calib_step + 1
        if st > 3 then
          let yaws := pts.map Prod.fst
          let pitchs := pts.map Prod.snd
          { calibrating := false
            calib_step := st
            calib_points := pts
            min_yaw := listMin yaws
            max_yaw := listMax yaws
            min_pitch := listMin pitchs
            max_pitch := listMax pitchs }
        else
          { s with calib_step := st, calib_points := pts }
      else s

/-- Averaged left yaw of a completed table: mean of the Top-Left (index 0)
and Bottom-Left (index 3) samples' yaws (eye_track.py line 175). -/
def yawLeft (pts : List (ℚ × ℚ)) : ℚ :=
  ((pts.getD 0 (0, 0)).1 + (pts.getD 3 (0, 0)).1) / 2

/-- Averaged right yaw: mean of Top-Right (index 1) and Bottom-Right
(index 2) yaws (eye_track.py line 176). -/
def yawRight (pts : List (ℚ × ℚ)) : ℚ :=
  ((pts.getD 1 (0, 0)).1 + (pts.getD 2 (0, 0)).1) / 2

/-- Averaged top pitch: mean of Top-Left (index 0) and Top-Right (index 1)
pitches (eye_track.py line 180). -/
def pitchTop (pts : List (ℚ × ℚ)) : ℚ :=
  ((pts.getD 0 (0, 0)).2 + (pts.getD 1 (0, 0)).2) / 2

/-- Averaged bottom pitch: mean of Bottom-Right (index 2) and Bottom-Left
(index 3) pitches (eye_track.py line 181). -/
def pitchBottom (pts : List (ℚ × ℚ)) : ℚ :=
  ((pts.getD 2 (0, 0)).2 + (pts.getD 3 (0, 0)).2) / 2

/-- `ratio_x = (yaw - yaw_left) / (yaw_right - yaw_left) if
(yaw_right - yaw_left) != 0 else 0.5` (eye_track.py line 184). -/
def ratioX (pts : List (ℚ × ℚ)) (yaw : ℚ) : ℚ :=
  if yawRight pts - yawLeft pts ≠ 0 then
    (yaw - yawLeft pts) / (yawRight pts - yawLeft pts)
  else 1 / 2

/-- `ratio_y = (pitch - pitch_top) / (pitch_bottom - pitch_top) if
(pitch_bottom - pitch_top) != 0 else 0.5` (eye_track.py line 185). -/
def ratioY (pts : List (ℚ × ℚ)) (pitch : ℚ) : ℚ :=
  if pitchBottom pts - pitchTop pts ≠ 0 then
    (pitch - pitchTop pts) / (pitchBottom pts - pitchTop pts)
  else 1 / 2

/-- The six 64-bit fields of the wire pose, in the documented order
`x, y, z, yaw, pitch, roll` (eye_track.py line 84).  Each field is the
64-bit pattern of one IEEE-754 double of the datagram; the byte-level
format is what the decoder manipulates, so fields are modelled as their
64-bit words. -/
structure Pose where
  x : ℕ
  y : ℕ
  z : ℕ
  yaw : ℕ
  pitch : ℕ
  roll : ℕ
deriving Repr, DecidableEq

/-- A little-endian byte list read as one natural number. -/
def bytesToWord (bs : List ℕ) : ℕ :=
  bs.foldr (fun b acc => b + 256 * acc) 0

/-- The `k` little-endian bytes of the word `w`. -/
def wordBytes : ℕ → ℕ → List ℕ
  | 0, _ => []
  | k + 1, w => w % 256 :: wordBytes k (w / 256)

/-- `struct.unpack('dddddd', data)` at the byte level: six consecutive
8-byte groups, assigned in the fixed order `x, y, z, yaw, pitch, roll`
(eye_track.py lines 84-86). -/
def unpackPose (data : List ℕ) : Pose :=
  { x := bytesToWord (data.take 8)
    y := bytesToWord ((data.drop 8).take 8)
    z := bytesToWord ((data.drop 16).take 8)
    yaw := bytesToWord ((data.drop 24).take 8)
    pitch := bytesToWord ((data.drop 32).take 8)
    roll := bytesToWord ((data.drop 40).take 8) }

/-- The inverse encoding: six 8-byte little-endian groups in field order. -/
def packPose (p : Pose) : List ℕ :=
  wordBytes 8 p.x ++ wordBytes 8 p.y ++ wordBytes 8 p.z ++
    wordBytes 8 p.yaw ++ wordBytes 8 p.pitch ++ wordBytes 8 p.roll

/-- One received datagram applied to the current pose:
`if len(data) == 48: pose = struct.unpack('dddddd', data)`
(eye_track.py lines 85-86); any other length leaves the pose untouched. -/
def recvUpdate (data : List ℕ) (pose : Pose) : Pose :=
  if data.length = 48 then unpackPose data else pose

/-- The step invariant of the state machine: while calibrating, the number
of stored samples equals the step index. -/
def StepInv (s : CalibState) : Prop :=
  s.calibrating = true → s.calib_points.length = s.calib_step

/-- A start trigger followed by four capture triggers with live pose
values `v1..v4`, in that order: one full calibration cycle. -/
def stepThrough (s : CalibState) (v1 v2 v3 v4 : ℚ × ℚ) : CalibState :=
  handleKey (handleKey (handleKey (handleKey (handleKey s v1 .start)
    v1 .capture) v2 .capture) v3 .capture) v4 .capture

/-- A mid-cycle calibration state: step 2 with 2 partial samples stored. -/
def midState : CalibState :=
  { initState with
      calibrating := true
      calib_step := 2
      calib_points := [(10, 10), (-10, 10)] }

/-- `math.radians`: degrees to radians (eye_track.py line 35). -/
noncomputable def radians (d : ℝ) : ℝ :=
  d * Real.pi / 180

/-- The yaw step of `rotate_point` (around Y):
`nx = x*cos(yaw) - z*sin(yaw); nz = x*sin(yaw) + z*cos(yaw)`
(eye_track.py lines 39-41). -/
noncomputable def rotYaw (v : ℝ × ℝ × ℝ) (a : ℝ) : ℝ × ℝ × ℝ :=
  (v.1 * Real.cos a - v.2.2 * Real.sin a, v.2.1,
    v.1 * Real.sin a + v.2.2 * Real.cos a)

/-- The pitch step of `rotate_point` (around X):
`ny = y*cos(pitch) - z*sin(pitch); nz = y*sin(pitch) + z*cos(pitch)`
(eye_track.py lines 44-46). -/
noncomputable def rotPitch (v : ℝ × ℝ × ℝ) (a : ℝ) : ℝ × ℝ × ℝ :=
  (v.1, v.2.1 * Real.cos a - v.2.2 * Real.sin a,
    v.2.1 * Real.sin a + v.2.2 * Real.cos a)

/-- The roll step of `rotate_point` (around Z):
`nx = x*cos(roll) - y*sin(roll); ny = x*sin(roll) + y*cos(roll)`
(eye_track.py lines 49-51). -/
noncomputable def rotRoll (v : ℝ × ℝ × ℝ) (a : ℝ) : ℝ × ℝ × ℝ :=
  (v.1 * Real.cos a - v.2.1 * Real.sin a,
    v.1 * Real.sin a + v.2.1 * Real.cos a, v.2.2)

/-- `rotate_point(x, y, z, pitch, yaw, roll)` (eye_track.py lines 32-53):
convert the three angles to radians, then apply the yaw step, the pitch
step, and the roll step in that order. -/
noncomputable def rotate_point (x y z pitch yaw roll : ℝ) : ℝ × ℝ × ℝ :=
  rotRoll (rotPitch (rotYaw (x, y, z) (radians yaw)) (radians pitch))
    (radians roll)

/-- `rotate_point` applied to a point triple. -/
noncomputable def rotatePt (p : ℝ × ℝ × ℝ) (pitch yaw roll : ℝ) :
    ℝ × ℝ × ℝ :=
  rotate_point p.1 p.2.1 p.2.2 pitch yaw roll

/-- Python `int()`: truncation toward zero. -/
noncomputable def pytrunc (r : ℝ) : ℤ :=
  if 0 ≤ r then ⌊r⌋ else ⌈r⌉

/-- `project_3d_point(x, y, z, width, height, scale)` (eye_track.py lines
25-30): perspective factor `300 / (z + 400)`, screen x and y offset to the
viewport center with y flipped, truncated to integers. -/
noncomputable def project_3d_point (x y z width height scale : ℝ) :
    ℤ × ℤ :=
  let factor := 300 / (z + 400)
  (pytrunc (x * factor * scale + width / 2),
    pytrunc (-y * factor * scale + height / 2))

/-- The 8 unit-cube vertices of the head box (eye_track.py lines 128-129). -/
noncomputable def vertices : List (ℝ × ℝ × ℝ) :=
  [(-1, -1, -1), (1, -1, -1), (1, 1, -1), (-1, 1, -1),
    (-1, -1, 1), (1, -1, 1), (1, 1, 1), (-1, 1, 1)]

/-- Squared Euclidean norm of a point triple. -/
noncomputable def normSq (v : ℝ × ℝ × ℝ) : ℝ :=
  v.1 ^ 2 + v.2.1 ^ 2 + v.2.2 ^ 2

/-- The pose as read by the drawing code (eye_track.py line 91), with the
six floats modelled as rationals. -/
structure PoseQ where
  x : ℚ
  y : ℚ
  z : ℚ
  yaw : ℚ
  pitch : ℚ
  roll : ℚ
deriving Repr, DecidableEq

/-- Python `int()` on a rational: truncation toward zero. -/
def pytruncQ (q : ℚ) : ℤ :=
  if 0 ≤ q then ⌊q⌋ else ⌈q⌉

/-- Coarse-mode gaze (eye_track.py lines 150-160): min/max normalization
with zero ranges replaced by 1, scaled by the 1280x720 viewport and
clamped to it.  Only the pose's yaw and pitch are read. -/
def coarseGaze (min_yaw max_yaw min_pitch max_pitch : ℚ) (p : PoseQ) :
    ℤ × ℤ :=
  let yaw_range := if max_yaw - min_yaw ≠ 0 then max_yaw - min_yaw else 1
  let pitch_range :=
    if max_pitch - min_pitch ≠ 0 then max_pitch - min_pitch else 1
  let norm_x := (p.yaw - min_yaw) / yaw_range
  let norm_y := (p.pitch - min_pitch) / pitch_range
  (max 0 (min 1280 (pytruncQ (norm_x * 1280))),
    max 0 (min 720 (pytruncQ (norm_y * 720))))

/-- Corner-interpolation gaze (eye_track.py lines 172-188): the guarded
corner ratios scaled by the viewport, unclamped.  Only the pose's yaw and
pitch are read. -/
def cornerGaze (pts : List (ℚ × ℚ)) (p : PoseQ) : ℤ × ℤ :=
  (pytruncQ (ratioX pts p.yaw * 1280), pytruncQ (ratioY pts p.pitch * 720))

/-- C1: from Idle with an empty sample list, a start trigger followed by
exactly 4 captures of live values v1..v4 yields one completed table
`[v1, v2, v3, v4]` in step order TL, TR, BR, BL and returns to Idle with
step 4; a further capture before a new start leaves the state unchanged;
and every key dispatch preserves the samples-equal-step invariant while
Calibrating. -/
theorem calib_cycle_correct (s0 : CalibState) (v1 v2 v3 v4 w : ℚ × ℚ)
    (h0 : s0.calibrating = false) (h1 : s0.calib_points = []) :
    (handleKey s0 v1 .start).calibrating = true ∧
    (handleKey s0 v1 .start).calib_step = 0 ∧
    (handleKey s0 v1 .start).calib_points = [] ∧
    (stepThrough s0 v1 v2 v3 v4).calibrating = false ∧
    (stepThrough s0 v1 v2 v3 v4).calib_step = 4 ∧
    (stepThrough s0 v1 v2 v3 v4).calib_points = [v1, v2, v3, v4] ∧
    handleKey (stepThrough s0 v1 v2 v3 v4) w .capture =
      stepThrough s0 v1 v2 v3 v4 ∧
    (∀ s : CalibState, ∀ v : ℚ × ℚ, ∀ t : Trigger,
      StepInv s → StepInv (handleKey s v t)) := by
  refine ⟨rfl, rfl, rfl, ?_, ?_, ?_, ?_, ?_⟩
  · simp [stepThrough, handleKey]
  · simp [stepThrough, handleKey]
  · simp [stepThrough, handleKey]
  · simp [stepThrough, handleKey]
  · intro s v t hs
    cases t with
    | start => intro _; simp [handleKey]
    | capture =>
        intro hc
        by_cases hb : s.calibrating = true
        · have hlen := hs hb
          simp only [handleKey, hb, if_true] at hc ⊢
          by_cases h3 : s.calib_step + 1 > 3
          · simp [h3] at hc
          · simp [h3] at hc ⊢
            omega
        · simp only [Bool.not_eq_true] at hb
          simp only [handleKey, hb] at hc ⊢
          exact hs hc

/-- Witness for `calib_cycle_correct` at the initial state and concrete
live samples. -/
theorem calib_cycle_correct_witness :
    initState.calibrating = false ∧ initState.calib_points = [] ∧
    ((handleKey initState (1, 2) .start).calibrating = true ∧
     (handleKey initState (1, 2) .start).calib_step = 0 ∧
     (handleKey initState (1, 2) .start).calib_points = [] ∧
     (stepThrough initState (1, 2) (3, 4) (5, 6) (7, 8)).calibrating = false ∧
     (stepThrough initState (1, 2) (3, 4) (5, 6) (7, 8)).calib_step = 4 ∧
     (stepThrough initState (1, 2) (3, 4) (5, 6) (7, 8)).calib_points =
       [(1, 2), (3, 4), (5, 6), (7, 8)] ∧
     handleKey (stepThrough initState (1, 2) (3, 4) (5, 6) (7, 8)) (9, 9)
         .capture = stepThrough initState (1, 2) (3, 4) (5, 6) (7, 8) ∧
     (∀ s : CalibState, ∀ v : ℚ × ℚ, ∀ t : Trigger,
       StepInv s → StepInv (handleKey s v t))) :=
  ⟨rfl, rfl,
    calib_cycle_correct initState (1, 2) (3, 4) (5, 6) (7, 8) (9, 9) rfl rfl⟩

/-- C7: a start trigger received while already Calibrating with 1..3
partial samples resets the step to 0 and discards all partial samples, and
the next completed cycle's table holds exactly the 4 samples captured
after the restart. -/
theorem calib_restart_discards (s : CalibState) (u w1 w2 w3 w4 : ℚ × ℚ)
    (hc : s.calibrating = true) (hlo : 1 ≤ s.calib_points.length)
    (hhi : s.calib_points.length ≤ 3) :
    (handleKey s u .start).calib_step = 0 ∧
    (handleKey s u .start).calib_points = [] ∧
    (stepThrough s w1 w2 w3 w4).calibrating = false ∧
    (stepThrough s w1 w2 w3 w4).calib_points = [w1, w2, w3, w4] := by
  refine ⟨rfl, rfl, ?_, ?_⟩
  · simp [stepThrough, handleKey]
  · simp [stepThrough, handleKey]

/-- Witness for `calib_restart_discards` at a mid-cycle state holding 2
partial samples. -/
theorem calib_restart_discards_witness :
    (midState.calibrating = true ∧ 1 ≤ midState.calib_points.length ∧
      midState.calib_points.length ≤ 3) ∧
    (handleKey midState (0, 0) .start).calib_step = 0 ∧
    (handleKey midState (0, 0) .start).calib_points = [] ∧
    (stepThrough midState (1, 1) (2, 2) (3, 3) (4, 4)).calibrating = false ∧
    (stepThrough midState (1, 1) (2, 2) (3, 3) (4, 4)).calib_points =
      [(1, 1), (2, 2), (3, 3), (4, 4)] :=
  ⟨⟨rfl, by decide, by decide⟩,
    calib_restart_discards midState (0, 0) (1, 1) (2, 2) (3, 3) (4, 4)
      rfl (by decide) (by decide)⟩

/-- C2 counterexample: a completed 4-sample table (TL, TR, BR, BL) =
`[(0,0), (3,0), (3,2), (2,2)]` on which feeding back the Top-Left
sample's yaw does NOT reproduce ratioX = 0: the averaged left yaw is
(0 + 2)/2 = 1, so ratioX = (0 - 1)/(3 - 1) = -1/2. -/
theorem corner_idempotent_cex :
    ratioX [(0, 0), (3, 0), (3, 2), (2, 2)] 0 ≠ 0 := by
  norm_num [ratioX, yawLeft, yawRight]

/-- C2 (amended): for a completed table whose left column shares yaw
`yl`, right column shares yaw `yr`, top row shares pitch `pt` and bottom
row shares pitch `pb`, with `yr ≠ yl` and `pb ≠ pt`, feeding back the
Top-Left sample's exact (yaw, pitch) yields ratio (0, 0) and the
Bottom-Right sample's yields ratio (1, 1). -/
theorem corner_idempotent_rect (yl yr pt pb : ℚ)
    (hy : yr - yl ≠ 0) (hp : pb - pt ≠ 0) :
    ratioX [(yl, pt), (yr, pt), (yr, pb), (yl, pb)] yl = 0 ∧
    ratioY [(yl, pt), (yr, pt), (yr, pb), (yl, pb)] pt = 0 ∧
    ratioX [(yl, pt), (yr, pt), (yr, pb), (yl, pb)] yr = 1 ∧
    ratioY [(yl, pt), (yr, pt), (yr, pb), (yl, pb)] pb = 1 := by
  have eyl : yawLeft [(yl, pt), (yr, pt), (yr, pb), (yl, pb)] = yl := by
    simp [yawLeft]
  have eyr : yawRight [(yl, pt), (yr, pt), (yr, pb), (yl, pb)] = yr := by
    simp [yawRight]
  have ept : pitchTop [(yl, pt), (yr, pt), (yr, pb), (yl, pb)] = pt := by
    simp [pitchTop]
  have epb : pitchBottom [(yl, pt), (yr, pt), (yr, pb), (yl, pb)] = pb := by
    simp [pitchBottom]
  refine ⟨?_, ?_, ?_, ?_⟩
  · rw [ratioX, eyl, eyr, if_pos hy]
    simp
  · rw [ratioY, ept, epb, if_pos hp]
    simp
  · rw [ratioX, eyl, eyr, if_pos hy]
    exact div_self hy
  · rw [ratioY, ept, epb, if_pos hp]
    exact div_self hp

/-- Witness for `corner_idempotent_rect` at the symmetric table with
yaw ∈ {-20, 20} and pitch ∈ {-20, 20}. -/
theorem corner_idempotent_rect_witness :
    ((20 : ℚ) - (-20) ≠ 0) ∧
    (ratioX [((-20 : ℚ), (-20 : ℚ)), (20, -20), (20, 20), (-20, 20)]
        (-20) = 0 ∧
     ratioY [((-20 : ℚ), (-20 : ℚ)), (20, -20), (20, 20), (-20, 20)]
        (-20) = 0 ∧
     ratioX [((-20 : ℚ), (-20 : ℚ)), (20, -20), (20, 20), (-20, 20)]
        20 = 1 ∧
     ratioY [((-20 : ℚ), (-20 : ℚ)), (20, -20), (20, 20), (-20, 20)]
        20 = 1) :=
  ⟨by norm_num,
    corner_idempotent_rect (-20) 20 (-20) 20 (by norm_num) (by norm_num)⟩

/-- C3: a completed table whose 4 samples all share the same yaw `c`
gives an equal averaged left and right yaw, and the guarded division
yields ratioX = 1/2 for every input yaw (no division is attempted); and
symmetrically a zero pitch denominator yields ratioY = 1/2. -/
theorem degenerate_ratio_half (c p0 p1 p2 p3 yaw pitch : ℚ)
    (pts : List (ℚ × ℚ)) (hp : pitchBottom pts - pitchTop pts = 0) :
    ratioX [(c, p0), (c, p1), (c, p2), (c, p3)] yaw = 1 / 2 ∧
    ratioY pts pitch = 1 / 2 := by
  constructor
  · have h0 : yawRight [(c, p0), (c, p1), (c, p2), (c, p3)] -
        yawLeft [(c, p0), (c, p1), (c, p2), (c, p3)] = 0 := by
      simp [yawLeft, yawRight]
    rw [ratioX, if_neg]
    simp [h0]
  · rw [ratioY, if_neg]
    simp [hp]

/-- Witness for `degenerate_ratio_half` at a concrete all-equal-yaw table
and a concrete zero-pitch-range table. -/
theorem degenerate_ratio_half_witness :
    (pitchBottom [((0 : ℚ), (7 : ℚ)), (1, 7), (2, 7), (3, 7)] -
      pitchTop [((0 : ℚ), (7 : ℚ)), (1, 7), (2, 7), (3, 7)] = 0) ∧
    (ratioX [((5 : ℚ), (1 : ℚ)), (5, 2), (5, 3), (5, 4)] 12 = 1 / 2 ∧
     ratioY [((0 : ℚ), (7 : ℚ)), (1, 7), (2, 7), (3, 7)] 3 = 1 / 2) :=
  ⟨by norm_num [pitchBottom, pitchTop],
    degenerate_ratio_half 5 1 2 3 4 12 3
      [((0 : ℚ), (7 : ℚ)), (1, 7), (2, 7), (3, 7)]
      (by norm_num [pitchBottom, pitchTop])⟩

theorem bytesToWord_cons (b : ℕ) (t : List ℕ) :
    bytesToWord (b :: t) = b + 256 * bytesToWord t :=
  rfl

theorem wordBytes_length (k w : ℕ) : (wordBytes k w).length = k := by
  induction k generalizing w with
  | zero => rfl
  | succ k ih => simp [wordBytes, ih]

theorem bytesToWord_wordBytes (k w : ℕ) :
    bytesToWord (wordBytes k w) = w % 256 ^ k := by
  induction k generalizing w with
  | zero => simp [wordBytes, bytesToWord, Nat.mod_one]
  | succ k ih =>
      have h : (256 : ℕ) ^ (k + 1) = 256 * 256 ^ k := by ring
      rw [wordBytes, bytesToWord_cons, ih, h, Nat.mod_mul]

theorem wordBytes_bytesToWord (bs : List ℕ) (h : ∀ b ∈ bs, b < 256) :
    wordBytes bs.length (bytesToWord bs) = bs := by
  induction bs with
  | nil => rfl
  | cons b t ih =>
      have hb : b < 256 := h b (by simp)
      have ht : ∀ x ∈ t, x < 256 := fun x hx => h x (by simp [hx])
      have e1 : (b + 256 * bytesToWord t) % 256 = b := by omega
      have e2 : (b + 256 * bytesToWord t) / 256 = bytesToWord t := by omega
      simp only [List.length_cons, wordBytes, bytesToWord_cons, e1, e2]
      rw [ih ht]

theorem wordBytes_chunk_round (data : List ℕ) (k : ℕ)
    (hk : k + 8 ≤ data.length) (hb : ∀ b ∈ data, b < 256) :
    wordBytes 8 (bytesToWord ((data.drop k).take 8)) = (data.drop k).take 8 := by
  have hlen : ((data.drop k).take 8).length = 8 := by
    simp only [List.length_take, List.length_drop]
    omega
  have hbb : ∀ b ∈ (data.drop k).take 8, b < 256 := fun b hbm =>
    hb b (List.drop_subset _ _ (List.take_subset _ _ hbm))
  have hr := wordBytes_bytesToWord ((data.drop k).take 8) hbb
  rwa [hlen] at hr

theorem chunks_assemble (data : List ℕ) (h : data.length = 48) :
    data.take 8 ++ ((data.drop 8).take 8 ++ ((data.drop 16).take 8 ++
      ((data.drop 24).take 8 ++ ((data.drop 32).take 8 ++
        (data.drop 40).take 8)))) = data := by
  have h40 : (data.drop 40).take 8 = data.drop 40 :=
    List.take_of_length_le (by simp [List.length_drop, h])
  have step : ∀ k : ℕ, (data.drop k).take 8 ++ data.drop (k + 8) = data.drop k := by
    intro k
    have hkd := List.take_append_drop 8 (data.drop k)
    rwa [List.drop_drop] at hkd
  have s8 := step 8
  have s16 := step 16
  have s24 := step 24
  have s32 := step 32
  norm_num at s8 s16 s24 s32
  rw [h40, s32, s24, s16, s8]
  exact List.take_append_drop 8 data

theorem unpack_concat (A B C D E F : List ℕ)
    (hA : A.length = 8) (hB : B.length = 8) (hC : C.length = 8)
    (hD : D.length = 8) (hE : E.length = 8) (hF : F.length = 8) :
    unpackPose (A ++ (B ++ (C ++ (D ++ (E ++ F))))) =
      { x := bytesToWord A, y := bytesToWord B, z := bytesToWord C,
        yaw := bytesToWord D, pitch := bytesToWord E,
        roll := bytesToWord F } := by
  set L := A ++ (B ++ (C ++ (D ++ (E ++ F)))) with hL
  have d8 : L.drop 8 = B ++ (C ++ (D ++ (E ++ F))) := by
    rw [hL]
    exact List.drop_left' hA
  have d16 : L.drop 16 = C ++ (D ++ (E ++ F)) := by
    have e : (L.drop 8).drop 8 = L.drop 16 := by
      rw [List.drop_drop]
    rw [← e, d8]
    exact List.drop_left' hB
  have d24 : L.drop 24 = D ++ (E ++ F) := by
    have e : (L.drop 16).drop 8 = L.drop 24 := by
      rw [List.drop_drop]
    rw [← e, d16]
    exact List.drop_left' hC
  have d32 : L.drop 32 = E ++ F := by
    have e : (L.drop 24).drop 8 = L.drop 32 := by
      rw [List.drop_drop]
    rw [← e, d24]
    exact List.drop_left' hD
  have d40 : L.drop 40 = F := by
    have e : (L.drop 32).drop 8 = L.drop 40 := by
      rw [List.drop_drop]
    rw [← e, d32]
    exact List.drop_left' hE
  have t0 : L.take 8 = A := by
    rw [hL]
    exact List.take_left' hA
  have t8 : (L.drop 8).take 8 = B := by
    rw [d8]
    exact List.take_left' hB
  have t16 : (L.drop 16).take 8 = C := by
    rw [d16]
    exact List.take_left' hC
  have t24 : (L.drop 24).take 8 = D := by
    rw [d24]
    exact List.take_left' hD
  have t32 : (L.drop 32).take 8 = E := by
    rw [d32]
    exact List.take_left' hE
  have t40 : (L.drop 40).take 8 = F := by
    rw [d40]
    exact List.take_of_length_le (le_of_eq hF)
  simp [unpackPose, t0, t8, t16, t24, t32, t40]

/-- C4: a datagram whose payload length is not 48 bytes is silently
dropped: the decode attempt is total (no error) and every one of the six
pose fields is unchanged afterwards. -/
theorem bad_length_pose_unchanged (data : List ℕ) (p : Pose)
    (h : data.length ≠ 48) :
    recvUpdate data p = p ∧
    (recvUpdate data p).x = p.x ∧ (recvUpdate data p).y = p.y ∧
    (recvUpdate data p).z = p.z ∧ (recvUpdate data p).yaw = p.yaw ∧
    (recvUpdate data p).pitch = p.pitch ∧
    (recvUpdate data p).roll = p.roll := by
  have e : recvUpdate data p = p := by
    rw [recvUpdate, if_neg h]
  simp [e]

/-- Witness for `bad_length_pose_unchanged` at a 3-byte payload. -/
theorem bad_length_pose_unchanged_witness :
    ([1, 2, 3] : List ℕ).length ≠ 48 ∧
    (recvUpdate [1, 2, 3] ⟨1, 2, 3, 4, 5, 6⟩ = ⟨1, 2, 3, 4, 5, 6⟩ ∧
     (recvUpdate [1, 2, 3] ⟨1, 2, 3, 4, 5, 6⟩).x = (1 : ℕ) ∧
     (recvUpdate [1, 2, 3] ⟨1, 2, 3, 4, 5, 6⟩).y = (2 : ℕ) ∧
     (recvUpdate [1, 2, 3] ⟨1, 2, 3, 4, 5, 6⟩).z = (3 : ℕ) ∧
     (recvUpdate [1, 2, 3] ⟨1, 2, 3, 4, 5, 6⟩).yaw = (4 : ℕ) ∧
     (recvUpdate [1, 2, 3] ⟨1, 2, 3, 4, 5, 6⟩).pitch = (5 : ℕ) ∧
     (recvUpdate [1, 2, 3] ⟨1, 2, 3, 4, 5, 6⟩).roll = (6 : ℕ)) :=
  ⟨by decide, bad_length_pose_unchanged [1, 2, 3] ⟨1, 2, 3, 4, 5, 6⟩
    (by decide)⟩

/-- C5: a 48-byte payload of six consecutive little-endian 64-bit groups
replaces the pose with exactly those six words in the fixed field order
x, y, z, yaw, pitch, roll; and decoding is a bijection between 48-byte
payloads and 6-word poses: re-encoding the decoded fields in the same
order reproduces the original payload, and decoding an encoded pose
reproduces the pose.  The 64-bit groups are the wire patterns of the six
IEEE-754 doubles. -/
theorem decode_bijective (data : List ℕ) (old p : Pose)
    (h48 : data.length = 48) (hb : ∀ b ∈ data, b < 256)
    (hx : p.x < 2 ^ 64) (hy : p.y < 2 ^ 64) (hz : p.z < 2 ^ 64)
    (hyaw : p.yaw < 2 ^ 64) (hpitch : p.pitch < 2 ^ 64)
    (hroll : p.roll < 2 ^ 64) :
    recvUpdate data old = unpackPose data ∧
    (unpackPose data).x = bytesToWord (data.take 8) ∧
    (unpackPose data).y = bytesToWord ((data.drop 8).take 8) ∧
    (unpackPose data).z = bytesToWord ((data.drop 16).take 8) ∧
    (unpackPose data).yaw = bytesToWord ((data.drop 24).take 8) ∧
    (unpackPose data).pitch = bytesToWord ((data.drop 32).take 8) ∧
    (unpackPose data).roll = bytesToWord ((data.drop 40).take 8) ∧
    packPose (unpackPose data) = data ∧
    unpackPose (packPose p) = p := by
  have h256 : (256 : ℕ) ^ 8 = 2 ^ 64 := by norm_num
  have hword : ∀ w : ℕ, w < 2 ^ 64 → bytesToWord (wordBytes 8 w) = w := by
    intro w hw
    rw [bytesToWord_wordBytes, h256]
    exact Nat.mod_eq_of_lt hw
  refine ⟨by rw [recvUpdate, if_pos h48], rfl, rfl, rfl, rfl, rfl, rfl,
    ?_, ?_⟩
  · have e0 : wordBytes 8 (bytesToWord (data.take 8)) = data.take 8 := by
      have h0 := wordBytes_chunk_round data 0 (by omega) hb
      rwa [List.drop_zero] at h0
    have e8 := wordBytes_chunk_round data 8 (by omega) hb
    have e16 := wordBytes_chunk_round data 16 (by omega) hb
    have e24 := wordBytes_chunk_round data 24 (by omega) hb
    have e32 := wordBytes_chunk_round data 32 (by omega) hb
    have e40 := wordBytes_chunk_round data 40 (by omega) hb
    simp only [packPose, unpackPose, e0, e8, e16, e24, e32, e40,
      List.append_assoc]
    exact chunks_assemble data h48
  · have hpk : packPose p =
        wordBytes 8 p.x ++ (wordBytes 8 p.y ++ (wordBytes 8 p.z ++
          (wordBytes 8 p.yaw ++ (wordBytes 8 p.pitch ++
            wordBytes 8 p.roll)))) := by
      simp [packPose, List.append_assoc]
    rw [hpk, unpack_concat _ _ _ _ _ _ (wordBytes_length 8 _)
      (wordBytes_length 8 _) (wordBytes_length 8 _) (wordBytes_length 8 _)
      (wordBytes_length 8 _) (wordBytes_length 8 _),
      hword _ hx, hword _ hy, hword _ hz, hword _ hyaw, hword _ hpitch,
      hword _ hroll]

/-- Witness for `decode_bijective` at the payload of bytes 0..47 and a
concrete small pose. -/
theorem decode_bijective_witness :
    ((List.range 48).length = 48 ∧ (∀ b ∈ List.range 48, b < 256) ∧
      (1 : ℕ) < 2 ^ 64 ∧ (2 : ℕ) < 2 ^ 64 ∧ (3 : ℕ) < 2 ^ 64 ∧
      (4 : ℕ) < 2 ^ 64 ∧ (5 : ℕ) < 2 ^ 64 ∧ (6 : ℕ) < 2 ^ 64) ∧
    (recvUpdate (List.range 48) ⟨0, 0, 0, 0, 0, 0⟩ =
        unpackPose (List.range 48) ∧
     (unpackPose (List.range 48)).x =
        bytesToWord ((List.range 48).take 8) ∧
     (unpackPose (List.range 48)).y =
        bytesToWord (((List.range 48).drop 8).take 8) ∧
     (unpackPose (List.range 48)).z =
        bytesToWord (((List.range 48).drop 16).take 8) ∧
     (unpackPose (List.range 48)).yaw =
        bytesToWord (((List.range 48).drop 24).take 8) ∧
     (unpackPose (List.range 48)).pitch =
        bytesToWord (((List.range 48).drop 32).take 8) ∧
     (unpackPose (List.range 48)).roll =
        bytesToWord (((List.range 48).drop 40).take 8) ∧
     packPose (unpackPose (List.range 48)) = List.range 48 ∧
     unpackPose (packPose ⟨1, 2, 3, 4, 5, 6⟩) = ⟨1, 2, 3, 4, 5, 6⟩) :=
  ⟨⟨by decide, by decide, by norm_num, by norm_num, by norm_num,
      by norm_num, by norm_num, by norm_num⟩,
    decode_bijective (List.range 48) ⟨0, 0, 0, 0, 0, 0⟩ ⟨1, 2, 3, 4, 5, 6⟩
      (by decide) (by decide) (by norm_num) (by norm_num) (by norm_num)
      (by norm_num) (by norm_num) (by norm_num)⟩

theorem radians_zero : radians 0 = 0 := by
  simp [radians]

theorem radians_ninety : radians 90 = Real.pi / 2 := by
  rw [radians]
  ring

/-- C6 counterexample: the nested expression of the claim applies pitch
innermost (first), but `rotate_point` applies yaw first, so at
p = (1,0,0), pitch = 90, yaw = 90, roll = 0 the nested expression gives
(0, 0, 1) while `rotate_point` gives (0, -1, 0). -/
theorem rotate_decomposition_cex :
    rotatePt (rotatePt (rotatePt (1, 0, 0) 90 0 0) 0 90 0) 0 0 0 ≠
      rotatePt (1, 0, 0) 90 90 0 := by
  simp only [rotatePt, rotate_point, rotYaw, rotPitch, rotRoll,
    radians_zero, radians_ninety, Real.cos_pi_div_two, Real.sin_pi_div_two,
    Real.cos_zero, Real.sin_zero]
  intro h
  have h2 := congrArg (fun q : ℝ × ℝ × ℝ => q.2.1) h
  norm_num at h2

/-- C6 (amended): `rotate_point` is the sequential composition
yaw step, then pitch step, then roll step, each a planar rotation by the
degree angle converted to radians; equivalently
Rotate(Rotate(Rotate(p, 0,yaw,0), pitch,0,0), 0,0,roll) =
Rotate(p, pitch,yaw,roll) for every point and all angles (yaw applied
innermost), and a 90-degree yaw followed by a 90-degree pitch on (1,0,0)
differs from pitch-then-yaw. -/
theorem rotate_composition_correct (x y z pitch yaw roll : ℝ) :
    rotatePt (rotatePt (rotatePt (x, y, z) 0 yaw 0) pitch 0 0) 0 0 roll =
      rotate_point x y z pitch yaw roll ∧
    rotatePt (rotatePt (1, 0, 0) 0 90 0) 90 0 0 ≠
      rotatePt (rotatePt (1, 0, 0) 90 0 0) 0 90 0 := by
  constructor
  · simp [rotatePt, rotate_point, rotYaw, rotPitch, rotRoll, radians_zero,
      Real.cos_zero, Real.sin_zero]
  · simp only [rotatePt, rotate_point, rotYaw, rotPitch, rotRoll,
      radians_zero, radians_ninety, Real.cos_pi_div_two,
      Real.sin_pi_div_two, Real.cos_zero, Real.sin_zero]
    intro h
    have h2 := congrArg (fun q : ℝ × ℝ × ℝ => q.2.1) h
    norm_num at h2

/-- C8: the origin projects to the viewport center for every width,
height and scale, truncated to integer pixel coordinates. -/
theorem project_origin_center (width height scale : ℝ) :
    project_3d_point 0 0 0 width height scale =
      (pytrunc (width / 2), pytrunc (height / 2)) := by
  simp [project_3d_point]

theorem rotYaw_normSq (v : ℝ × ℝ × ℝ) (a : ℝ) :
    normSq (rotYaw v a) = normSq v := by
  simp only [normSq, rotYaw]
  linear_combination (v.1 ^ 2 + v.2.2 ^ 2) * Real.sin_sq_add_cos_sq a

theorem rotPitch_normSq (v : ℝ × ℝ × ℝ) (a : ℝ) :
    normSq (rotPitch v a) = normSq v := by
  simp only [normSq, rotPitch]
  linear_combination (v.2.1 ^ 2 + v.2.2 ^ 2) * Real.sin_sq_add_cos_sq a

theorem rotRoll_normSq (v : ℝ × ℝ × ℝ) (a : ℝ) :
    normSq (rotRoll v a) = normSq v := by
  simp only [normSq, rotRoll]
  linear_combination (v.1 ^ 2 + v.2.1 ^ 2) * Real.sin_sq_add_cos_sq a

theorem rotate_point_normSq (x y z pitch yaw roll : ℝ) :
    normSq (rotate_point x y z pitch yaw roll) =
      x ^ 2 + y ^ 2 + z ^ 2 := by
  rw [rotate_point, rotRoll_normSq, rotPitch_normSq, rotYaw_normSq]
  rfl

/-- C10: the rotated depth of every cube vertex lies in [-sqrt 3, sqrt 3]
(rotation preserves the vertex norm sqrt 3), so after the translation
`tz = rz - 5` of the render path the projection denominator `tz + 400` is
strictly positive: `project_3d_point` never divides by zero there. -/
theorem render_depth_safe (pitch yaw roll : ℝ) (v : ℝ × ℝ × ℝ)
    (hv : v ∈ vertices) :
    -Real.sqrt 3 ≤ (rotate_point v.1 v.2.1 v.2.2 pitch yaw roll).2.2 ∧
    (rotate_point v.1 v.2.1 v.2.2 pitch yaw roll).2.2 ≤ Real.sqrt 3 ∧
    0 < (rotate_point v.1 v.2.1 v.2.2 pitch yaw roll).2.2 - 5 + 400 := by
  have hsum : v.1 ^ 2 + v.2.1 ^ 2 + v.2.2 ^ 2 = 3 := by
    fin_cases hv <;> norm_num
  have hmain : normSq (rotate_point v.1 v.2.1 v.2.2 pitch yaw roll) = 3 := by
    rw [rotate_point_normSq, hsum]
  set r := rotate_point v.1 v.2.1 v.2.2 pitch yaw roll with hr
  have h3 : r.2.2 ^ 2 ≤ 3 := by
    have h1 := sq_nonneg r.1
    have h2 := sq_nonneg r.2.1
    rw [normSq] at hmain
    nlinarith
  have habs : |r.2.2| ≤ Real.sqrt 3 := by
    rw [← Real.sqrt_sq_eq_abs]
    exact Real.sqrt_le_sqrt h3
  obtain ⟨hlo, hhi⟩ := abs_le.mp habs
  refine ⟨hlo, hhi, ?_⟩
  nlinarith [sq_nonneg (r.2.2 + 2)]

/-- Witness for `render_depth_safe` at vertex (-1, -1, -1) and zero
angles. -/
theorem render_depth_safe_witness :
    ((-1, -1, -1) : ℝ × ℝ × ℝ) ∈ vertices ∧
    (-Real.sqrt 3 ≤ (rotate_point (-1) (-1) (-1) 0 0 0).2.2 ∧
     (rotate_point (-1) (-1) (-1) 0 0 0).2.2 ≤ Real.sqrt 3 ∧
     0 < (rotate_point (-1) (-1) (-1) 0 0 0).2.2 - 5 + 400) :=
  ⟨by simp [vertices],
    render_depth_safe 0 0 0 (-1, -1, -1) (by simp [vertices])⟩

/-- C9: both gaze modes read only the pose's yaw and pitch: two poses
agreeing on yaw and pitch but arbitrary in x, y, z and roll produce
identical coarse-mode and corner-interpolation gaze coordinates for the
same calibration bounds and table. -/
theorem gaze_orientation_only (p1 p2 : PoseQ)
    (min_yaw max_yaw min_pitch max_pitch : ℚ) (pts : List (ℚ × ℚ))
    (hyaw : p1.yaw = p2.yaw) (hpitch : p1.pitch = p2.pitch) :
    coarseGaze min_yaw max_yaw min_pitch max_pitch p1 =
      coarseGaze min_yaw max_yaw min_pitch max_pitch p2 ∧
    cornerGaze pts p1 = cornerGaze pts p2 := by
  constructor
  · simp [coarseGaze, hyaw, hpitch]
  · simp [cornerGaze, hyaw, hpitch]

/-- Witness for `gaze_orientation_only`: two poses sharing yaw 10 and
pitch -5 but differing in x, y, z and roll. -/
theorem gaze_orientation_only_witness :
    ((⟨1, 2, 3, 10, -5, 30⟩ : PoseQ).yaw = (⟨7, 8, 9, 10, -5, 40⟩ : PoseQ).yaw ∧
     (⟨1, 2, 3, 10, -5, 30⟩ : PoseQ).pitch =
       (⟨7, 8, 9, 10, -5, 40⟩ : PoseQ).pitch) ∧
    (coarseGaze (-20) 20 (-20) 20 ⟨1, 2, 3, 10, -5, 30⟩ =
       coarseGaze (-20) 20 (-20) 20 ⟨7, 8, 9, 10, -5, 40⟩ ∧
     cornerGaze [((-20 : ℚ), (-20 : ℚ)), (20, -20), (20, 20), (-20, 20)]
         ⟨1, 2, 3, 10, -5, 30⟩ =
       cornerGaze [((-20 : ℚ), (-20 : ℚ)), (20, -20), (20, 20), (-20, 20)]
         ⟨7, 8, 9, 10, -5, 40⟩) :=
  ⟨⟨rfl, rfl⟩,
    gaze_orientation_only ⟨1, 2, 3, 10, -5, 30⟩ ⟨7, 8, 9, 10, -5, 40⟩
      (-20) 20 (-20) 20
      [((-20 : ℚ), (-20 : ℚ)), (20, -20), (20, 20), (-20, 20)] rfl rfl⟩

end EyeTrack
